import Mathlib

/-!
Verification development for the mod-manager repository (Rust).

The Rust sources under src/ are embedded shallowly: pure functions become
Lean functions, filesystem and process effects become explicit inputs
(probe records, "world" records recording what the external processes would
answer) and explicit outputs (resulting filesystem model, lists of
performed operations).  Machine integers that matter are modelled with
Nat/Int.  All definitions are executable.
-/

set_option maxHeartbeats 1000000

/-! ## Generic association-list helpers (model of HashMap / toml table lookup) -/

/-- First-match lookup in an association list; models `HashMap::get` and
`toml::map::Map::get` (keys are unique in a parsed TOML table). -/
def lookupAssoc {α : Type} : String → List (String × α) → Option α
  | _, [] => none
  | k, (k', v) :: rest => if k = k' then some v else lookupAssoc k rest

/-- Insert-or-replace in an association list; models `HashMap::insert`. -/
def insertAssoc {α : Type} (k : String) (v : α) : List (String × α) → List (String × α)
  | [] => [(k, v)]
  | (k', v') :: rest => if k = k' then (k, v) :: rest else (k', v') :: insertAssoc k v rest

/-! ## Substring search (model of Rust `str::contains`) -/

/-- Boolean test that `p` is a prefix of `s` (over characters). -/
def listPrefixB : List Char → List Char → Bool
  | [], _ => true
  | _ :: _, [] => false
  | a :: as, b :: bs => a == b && listPrefixB as bs

/-- Boolean test that `pat` occurs contiguously inside `s` (over characters). -/
def listSub (pat : List Char) : List Char → Bool
  | [] => pat.isEmpty
  | b :: t => listPrefixB pat (b :: t) || listSub pat t

/-- Model of Rust `String::contains(&pat)`: substring containment. -/
def strContains (s pat : String) : Bool := listSub pat.data s.data

theorem listPrefixB_iff (p s : List Char) : listPrefixB p s = true ↔ ∃ r, s = p ++ r := by
  induction p generalizing s with
  | nil => simp [listPrefixB]
  | cons a as ih =>
    cases s with
    | nil => simp [listPrefixB]
    | cons b bs =>
      simp only [listPrefixB, Bool.and_eq_true, beq_iff_eq, ih]
      constructor
      · rintro ⟨rfl, r, rfl⟩; exact ⟨r, rfl⟩
      · rintro ⟨r, h⟩
        injection h with h1 h2
        exact ⟨h1.symm, r, h2⟩

theorem listSub_iff (p s : List Char) : listSub p s = true ↔ ∃ l r, s = l ++ p ++ r := by
  induction s with
  | nil =>
    simp only [listSub, List.isEmpty_iff]
    constructor
    · rintro rfl; exact ⟨[], [], rfl⟩
    · rintro ⟨l, r, h⟩
      rcases List.append_eq_nil.mp h.symm with ⟨h1, h2⟩
      exact (List.append_eq_nil.mp h1).2
  | cons b t ih =>
    simp only [listSub, Bool.or_eq_true, listPrefixB_iff, ih]
    constructor
    · rintro (⟨r, h⟩ | ⟨l, r, h⟩)
      · exact ⟨[], r, by simp [h]⟩
      · exact ⟨b :: l, r, by simp [h]⟩
    · rintro ⟨l, r, h⟩
      cases l with
      | nil => exact Or.inl ⟨r, by simpa using h⟩
      | cons x xs =>
        injection h with h1 h2
        exact Or.inr ⟨xs, r, by simpa using h2⟩

/-- Substring containment, characterised mathematically. -/
theorem strContains_iff (s pat : String) :
    strContains s pat = true ↔ ∃ l r, s.data = l ++ pat.data ++ r := listSub_iff _ _

/-! ## Overlay: mount states and errors (src/overlay.rs) -/

/-- Model of `MountState` from src/overlay.rs. -/
inductive MountState where
  | unknown
  | normal
  | mounted
  | moved
  | invalid
deriving DecidableEq, Repr

/-- Model of `OverlayErrorKind` from src/overlay.rs. -/
inductive OverlayErrorKind where
  | used
  | mount
  | process
  | mountState
  | string
deriving DecidableEq, Repr

/-- Model of `OverlayError` from src/overlay.rs (messages kept recognisable,
with the quoting simplified). -/
structure OverlayError where
  kind : OverlayErrorKind
  overlay : String
  message : String
deriving DecidableEq, Repr

/-- Model of the `Overlay` struct from src/overlay.rs; paths are strings,
`cwd` is the remembered working directory captured at construction. -/
structure Overlay where
  game_id : String
  path : String
  moved_path : String
  cwd : String
deriving DecidableEq, Repr

/-- Results of the five filesystem probes `get_current_mounting_state` can
perform: whether each of the two paths `is_dir()`, whether `read_dir` yields
at least one entry for each, and whether the `mountpoint` probe reports the
original path as mounted. -/
structure FsProbe where
  pathIsDir : Bool
  pathHasEntries : Bool
  pathIsMountpoint : Bool
  movedPathIsDir : Bool
  movedPathHasEntries : Bool
deriving DecidableEq, Repr

/-- Model of the free function `is_directory_empty` (src/overlay.rs:417):
a path that is not a directory counts as not empty; otherwise empty iff
`read_dir` yields no entry (the model ignores transient read errors). -/
def is_directory_empty (isDir hasEntries : Bool) : Bool :=
  if !isDir then false else !hasEntries

/-- Model of `Overlay::get_current_mounting_state` (src/overlay.rs:102).
The returned Bool records the cleanup side effect: `true` when the function
executed `fs::remove_dir(&self.path)` on the stray empty original directory
(the removal is assumed to succeed in the model; the `mountpoint` probe is
assumed to spawn, its boolean answer being part of `FsProbe`). -/
def Overlay.get_current_mounting_state (o : Overlay) (fs : FsProbe) :
    Except OverlayError (MountState × Bool) :=
  if !fs.pathIsDir then
    if !fs.movedPathIsDir then
      .error ⟨.mountState, o.game_id, o.path ++ " AND " ++ o.moved_path ++ " both do not exist"⟩
    else if is_directory_empty fs.movedPathIsDir fs.movedPathHasEntries then
      .error ⟨.mountState, o.game_id, o.moved_path ++ " is empty, which is unexpected"⟩
    else
      .ok (.moved, false)
  else if fs.pathIsMountpoint then
    if !fs.movedPathIsDir then
      .error ⟨.mountState, o.game_id, o.path ++ " is mounted, but " ++ o.moved_path ++ " does not exist"⟩
    else if is_directory_empty fs.movedPathIsDir fs.movedPathHasEntries then
      .error ⟨.mountState, o.game_id, o.path ++ " is mounted, but " ++ o.moved_path ++ " is empty"⟩
    else
      .ok (.mounted, false)
  else if is_directory_empty fs.pathIsDir fs.pathHasEntries then
    if !fs.movedPathIsDir then
      .error ⟨.mountState, o.game_id, o.path ++ " is empty and " ++ o.moved_path ++ " does not exist"⟩
    else if is_directory_empty fs.movedPathIsDir fs.movedPathHasEntries then
      .error ⟨.mountState, o.game_id, o.path ++ " AND " ++ o.moved_path ++ " both are empty"⟩
    else
      .ok (.moved, true)
  else
    if fs.movedPathIsDir && !(is_directory_empty fs.movedPathIsDir fs.movedPathHasEntries) then
      .error ⟨.mountState, o.game_id, o.path ++ " AND " ++ o.moved_path ++ " both are not empty"⟩
    else
      .ok (.normal, false)

/-- Projection of an overlay-probe result to its success value. -/
def exceptOk {ε α : Type} : Except ε α → Option α
  | .ok r => some r
  | .error _ => none

/-- Boolean test that a mount-state probe failed with kind `MountState`. -/
def isMountStateError : Except OverlayError (MountState × Bool) → Bool
  | .error e => e.kind == .mountState
  | .ok _ => false

/-- The documented state table, written from the specification: each row gives
the probe combination and the valid state (the Bool marking the rows where the
now-empty original directory is removed as a cleanup side effect); `none`
means the combination is outside the table. Rows are read top to bottom, as
in the numbered algorithm of the specification. -/
def mountStateTable (fs : FsProbe) : Option (MountState × Bool) :=
  if !fs.pathIsDir then
    if fs.movedPathIsDir && fs.movedPathHasEntries then some (.moved, false) else none
  else if fs.pathIsMountpoint then
    if fs.movedPathIsDir && fs.movedPathHasEntries then some (.mounted, false) else none
  else if !fs.pathHasEntries then
    if fs.movedPathIsDir && fs.movedPathHasEntries then some (.moved, true) else none
  else
    if !(fs.movedPathIsDir && fs.movedPathHasEntries) then some (.normal, false) else none

/-! ## Overlay: mount and unmount (src/overlay.rs) -/

/-- External-world answers consumed by `Overlay::mount`: whether the two
`set_current_dir` calls succeed, whether the privileged helper spawns and
exits successfully, and what the `mountpoint` re-probe answers afterwards
(`none` models a spawn failure of the respective process). -/
structure MountWorld where
  cwdRootOk : Bool
  helper : Option Bool
  probe : Option Bool
  cwdBackOk : Bool
deriving DecidableEq, Repr

/-- Model of `Overlay::change_cwd` (src/overlay.rs:401); `ok` is whether the
underlying `set_current_dir` call succeeds. -/
def Overlay.change_cwd (o : Overlay) (ok : Bool) : Except OverlayError Unit :=
  if ok then .ok ()
  else .error ⟨.process, o.game_id, "Could not change the current working directory"⟩

/-- Model of `Overlay::mount` (src/overlay.rs:270): move cwd away, run the
privileged mount helper, re-probe mountpoint status as a safety check, then
restore cwd. -/
def Overlay.mount (o : Overlay) (w : MountWorld) : Except OverlayError Unit :=
  match o.change_cwd w.cwdRootOk with
  | .error e => .error e
  | .ok _ =>
    match w.helper with
    | none => .error ⟨.process, o.game_id, "Failed executing the helper process"⟩
    | some false => .error ⟨.mount, o.game_id, "Error mounting"⟩
    | some true =>
      match w.probe with
      | none => .error ⟨.process, o.game_id, "Failed executing mountpoint process"⟩
      | some false => .error ⟨.mountState, o.game_id, "Mounting wasnt sucessful"⟩
      | some true =>
        match o.change_cwd w.cwdBackOk with
        | .error e => .error e
        | .ok _ => .ok ()

/-- External-world answers consumed by `Overlay::unmount`. The source invokes
`lsof +f -- <self.game_id>` (src/overlay.rs:326), so the model records the
exit status lsof would report for each of the two candidate arguments: the
game id (what the code actually passes) and the original game path (the
mount target); `some true` means lsof exited 0, i.e. it found processes
using its argument; `none` models a spawn failure (the code prints and
continues). The two `thread::sleep` calls are modelled as no-ops. -/
structure UnmountWorld where
  cwdRootOk : Bool
  lsofGameId : Option Bool
  lsofPath : Option Bool
  helper : Option Bool
deriving DecidableEq, Repr

/-- Model of `Overlay::unmount` (src/overlay.rs:318). The second component
records whether the privileged unmount helper process was invoked. -/
def Overlay.unmount (o : Overlay) (w : UnmountWorld) : Except OverlayError Unit × Bool :=
  match o.change_cwd w.cwdRootOk with
  | .error e => (.error e, false)
  | .ok _ =>
    match w.lsofGameId with
    | some true =>
      (.error ⟨.used, o.game_id, "Unmounting failed, the overlay is still in use."⟩, false)
    | _ =>
      match w.helper with
      | none => (.error ⟨.process, o.game_id, "Failed executing the helper process"⟩, true)
      | some false => (.error ⟨.mount, o.game_id, "Error unmounting"⟩, true)
      | some true => (.ok (), true)

/-! ## Game filesystem model and deactivate (src/game.rs) -/

/-- Model of the filesystem state of one game, seen through the probes the
program performs: whether the overlay is currently mounted on the original
path, and, for the underlying original directory and the shadow
("moved") directory, `none` when the directory is absent and `some b` when it
exists with `b` recording whether it has entries. While an overlay is
mounted, the original path probes as a directory (the mountpoint); its
underlying directory is what becomes visible again after unmounting. -/
structure GameFs where
  mounted : Bool
  orig : Option Bool
  shadow : Option Bool
deriving DecidableEq, Repr

/-- Probe results derived from a `GameFs`. The original-path entry probe is
only consulted by the code when the path is not a mountpoint, so while
mounted its value is irrelevant (the model reports the overlay view as
non-empty). -/
def GameFs.probe (fs : GameFs) : FsProbe :=
  { pathIsDir := fs.mounted || fs.orig.isSome
    pathHasEntries := if fs.mounted then true else fs.orig.getD false
    pathIsMountpoint := fs.mounted
    movedPathIsDir := fs.shadow.isSome
    movedPathHasEntries := fs.shadow.getD false }

/-- Filesystem operations `Game::deactivate` can perform, recorded in order:
invoking the privileged unmount helper, calling `fs::remove_dir` on the
original path, and renaming the shadow path back onto the original path. -/
inductive FsOp where
  | unmountHelper
  | removeDir
  | rename
deriving DecidableEq, Repr

/-- Model of `GameError` from src/game.rs. -/
structure GameError where
  kind : String
  id : String
  message : String
deriving DecidableEq, Repr

/-- Stateful wrapper of `Overlay::get_current_mounting_state` over `GameFs`:
applies the documented cleanup side effect (removal of the stray empty
original directory) to the filesystem model and records it as an operation. -/
def Overlay.getStateFs (o : Overlay) (fs : GameFs) :
    Except OverlayError (MountState × GameFs × List FsOp) :=
  match o.get_current_mounting_state fs.probe with
  | .error e => .error e
  | .ok (s, true) => .ok (s, { fs with orig := none }, [.removeDir])
  | .ok (s, false) => .ok (s, fs, [])

/-- External-world answers consumed by `Game::deactivate`: the unmount
world (cwd change, lsof, helper) plus the success of the final
`change_cwd(true)` call. The runtime PID-marker directory is modelled as
empty (no background pre-command processes to terminate). -/
structure DeactWorld where
  uw : UnmountWorld
  cwdBackOk : Bool
deriving DecidableEq, Repr

/-- Second half of `Game::deactivate` (src/game.rs:457): re-probe the state;
if it reads `Moved`, remove the (now empty or absent) original directory —
a NotFound error is tolerated — and rename the shadow directory back onto
the original path; finally restore the working directory. -/
def deactivateRest (o : Overlay) (w : DeactWorld) (fs : GameFs) (ops : List FsOp) :
    Except GameError (GameFs × List FsOp) :=
  match o.getStateFs fs with
  | .error e =>
    .error ⟨"overlay", o.game_id, "Error getting current mount state: " ++ e.message⟩
  | .ok (s2, fs2, ops2) =>
    if s2 = .moved then
      match fs2.orig with
      | some true =>
        .error ⟨"fs", o.game_id, "Unable to remove the empty game directory " ++ o.path⟩
      | _ =>
        let fs3 : GameFs := { fs2 with orig := none }
        match fs3.shadow with
        | none =>
          .error ⟨"fs", o.game_id, "Unable to move game files back to its original location"⟩
        | some h =>
          let fs4 : GameFs := { mounted := fs3.mounted, orig := some h, shadow := none }
          match o.change_cwd w.cwdBackOk with
          | .error e => .error ⟨"process", o.game_id, e.message⟩
          | .ok _ => .ok (fs4, ops ++ ops2 ++ [.removeDir, .rename])
    else
      match o.change_cwd w.cwdBackOk with
      | .error e => .error ⟨"process", o.game_id, e.message⟩
      | .ok _ => .ok (fs2, ops ++ ops2)

/-- Model of `Game::deactivate` (src/game.rs:351). The runtime PID files are
modelled as absent, so the termination loop at the top is a no-op. On
success the final filesystem model and the list of performed operations are
returned; when the state reads `Normal` the function returns immediately. -/
def Game.deactivate (o : Overlay) (w : DeactWorld) (fs : GameFs) :
    Except GameError (GameFs × List FsOp) :=
  match o.getStateFs fs with
  | .error e =>
    .error ⟨"overlay", o.game_id, "Error getting current mount state: " ++ e.message⟩
  | .ok (s, fs1, ops1) =>
    match s with
    | .normal => .ok (fs1, ops1)
    | .unknown =>
      .error ⟨"overlay", o.game_id, "Unable to retrieve the current mounting state for the game."⟩
    | .invalid =>
      .error ⟨"overlay", o.game_id, "The game is in an invalid mounting state."⟩
    | .mounted =>
      match o.unmount w.uw with
      | (.error e, _) =>
        if e.kind = .used then .error ⟨"Overlay in use.", o.game_id, e.message⟩
        else .error ⟨"overlay", o.game_id, e.message⟩
      | (.ok _, _) =>
        deactivateRest o w { fs1 with mounted := false } (ops1 ++ [.unmountHelper])
    | .moved => deactivateRest o w fs1 ops1

/-- Boolean test that the current mounting state of a game filesystem reads
`Normal` (probing performs no cleanup in that case). -/
def stateReadsNormal (o : Overlay) (fs : GameFs) : Bool :=
  match o.get_current_mounting_state fs.probe with
  | .ok (.normal, _) => true
  | _ => false

/-! ## ExternalCommand (src/external_command.rs) -/

/-- Model of the `ExternalCommand` struct from src/external_command.rs.
`delay_after` keeps the `as u64` reinterpretation of the parsed integer. -/
structure ExternalCommand where
  id : String
  args : List String
  env : List (String × String)
  wait_for_exit : Bool
  delay_after : Option Nat
deriving DecidableEq, Repr

/-- External-world answers consumed by `ExternalCommand::run`: whether
`Command::spawn` succeeds (`some pid` identifies the child handle) and the
exit status the child reports when waited for. -/
structure RunWorld where
  spawn : Option Nat
  exitSuccess : Bool
deriving DecidableEq, Repr

/-- Model of `ExternalCommand::run` (src/external_command.rs:120): a spawn
failure is returned as an error; without `wait_for_exit` the child handle is
returned after the optional delay; with `wait_for_exit` the process is
waited for — a non-zero exit status is only printed — and `none` is
returned. The `thread::sleep` delays are modelled as no-ops. -/
def ExternalCommand.run (c : ExternalCommand) (w : RunWorld) : Except String (Option Nat) :=
  match w.spawn with
  | none => .error "spawn failed"
  | some child =>
    if !c.wait_for_exit then
      .ok (some child)
    else
      .ok none

/-- Model of `ExternalCommand::add_environment_variables`
(src/external_command.rs:165): appends the given variables to the
command environment. -/
def ExternalCommand.add_environment_variables (c : ExternalCommand)
    (vs : List (String × String)) : ExternalCommand :=
  { c with env := c.env ++ vs }

/-! ## TOML values (model of the toml::Value fragment the program reads) -/

/-- Model of the fragment of `toml::Value` consumed by src/mod_set.rs and
src/external_command.rs: strings, integers, booleans, arrays and tables. -/
inductive Toml where
  | str : String → Toml
  | int : Int → Toml
  | boolean : Bool → Toml
  | arr : List Toml → Toml
  | table : List (String × Toml) → Toml

/-- Model of `toml::Value::as_str`. -/
def Toml.asStr : Toml → Option String
  | .str s => some s
  | _ => none

/-- Model of `toml::Value::is_str`. -/
def Toml.isStr : Toml → Bool
  | .str _ => true
  | _ => false

/-- Model of `toml::Value::as_array`. -/
def Toml.asArray : Toml → Option (List Toml)
  | .arr l => some l
  | _ => none

/-- Model of `toml::Value::as_bool`. -/
def Toml.asBool : Toml → Option Bool
  | .boolean b => some b
  | _ => none

/-- Model of `toml::Value::as_integer`. -/
def Toml.asInteger : Toml → Option Int
  | .int n => some n
  | _ => none

/-- Model of `toml::Value::as_table`. -/
def Toml.asTable : Toml → Option (List (String × Toml))
  | .table t => some t
  | _ => none

/-! ## ExternalCommand::from_config (src/external_command.rs) -/

/-- Helper converting every array entry with `as_str`, stopping at the first
non-string entry, as the loop in `ExternalCommand::from_config` does. -/
def tomlStrings : List Toml → Option (List String)
  | [] => some []
  | t :: rest =>
    match t.asStr with
    | none => none
    | some s =>
      match tomlStrings rest with
      | none => none
      | some ss => some (s :: ss)

/-- Helper converting an environment table, requiring every value to be a
string, as the loop in `ExternalCommand::from_config` does. -/
def tomlEnvPairs : List (String × Toml) → Option (List (String × String))
  | [] => some []
  | (k, v) :: rest =>
    match v.asStr with
    | none => none
    | some s =>
      match tomlEnvPairs rest with
      | none => none
      | some ss => some ((k, s) :: ss)

/-- The `wait_for_exit` block of `ExternalCommand::from_config`
(src/external_command.rs:63): absent means true, present must be a
boolean. -/
def ecWaitForExit (config : List (String × Toml)) : Except String Bool :=
  match lookupAssoc "wait_for_exit" config with
  | none => .ok true
  | some v =>
    match v.asBool with
    | some b => .ok b
    | none => .error "wait_for_exit is not a boolean"

/-- The `delay_after` block of `ExternalCommand::from_config`
(src/external_command.rs:76): absent means none, present must be an
integer, kept with the `as u64` bit reinterpretation. -/
def ecDelayAfter (config : List (String × Toml)) : Except String (Option Nat) :=
  match lookupAssoc "delay_after" config with
  | none => .ok none
  | some v =>
    match v.asInteger with
    | some n => .ok (some ((n % (2 : Int) ^ 64).toNat))
    | none => .error "Invalid delay_after value type"

/-- The `environment` block of `ExternalCommand::from_config`
(src/external_command.rs:89): absent means empty, present must be a table
whose values are all strings. -/
def ecEnvironment (config : List (String × Toml)) : Except String (List (String × String)) :=
  match lookupAssoc "environment" config with
  | none => .ok []
  | some v =>
    match v.asTable with
    | none => .error "environment must be a table"
    | some envTable =>
      match tomlEnvPairs envTable with
      | none => .error "Invalid value in environment table"
      | some env => .ok env

/-- Model of `ExternalCommand::from_config` (src/external_command.rs:33).
Errors are the source's messages, abbreviated. -/
def ExternalCommand.from_config (game_name id : String) (config : List (String × Toml)) :
    Except String ExternalCommand :=
  match lookupAssoc "command" config with
  | none => .error "Missing command key"
  | some v =>
    match v.asArray with
    | none => .error ("Invalid command key type for game " ++ game_name)
    | some command_array =>
      if command_array.isEmpty then
        .error ("command array is empty for game " ++ game_name)
      else
        match tomlStrings command_array with
        | none => .error ("Error converting to string in command array for game " ++ game_name)
        | some args =>
          match ecWaitForExit config with
          | .error e => .error e
          | .ok wait_for_exit =>
            match ecDelayAfter config with
            | .error e => .error e
            | .ok delay_after =>
              match ecEnvironment config with
              | .error e => .error e
              | .ok env => .ok ⟨id, args, env, wait_for_exit, delay_after⟩

/-! ## ModSet (src/mod_set.rs) -/

/-- Characters of a path with every colon escaped; model of the
`.replace(":", "\\:")` call in `ModSet::get_mount_string`. -/
def escChars : List Char → List Char
  | [] => []
  | c :: rest => if c = ':' then '\\' :: ':' :: escChars rest else c :: escChars rest

/-- Model of `str::replace(":", "\\:")` on a path string. -/
def escapeColons (s : String) : String := String.mk (escChars s.data)

/-- Model of `str::trim_start_matches(':')`: drop every leading colon. -/
def trimStartColons (s : String) : String := String.mk (s.data.dropWhile (fun c => c == ':'))

/-- Model of `PathBuf::join` for the path/name joins the program performs. -/
def joinPath (root name : String) : String := root ++ "/" ++ name

/-- Model of the `ModSet` struct (src/mod_set.rs:10): the flags, the optional
resolved command, the ordered member-name list, the map from member name to
resolved child set, and the mod root path. The map is kept as its entry
list; the std `HashMap` of the source iterates its values in an arbitrary,
unspecified order, so a list in any order models the same map. -/
inductive ModSet where
  | mk (writable : Bool) (should_run_pre_commands : Bool) (command : Option ExternalCommand)
      (mods : List String) (mod_sets : List (String × ModSet)) (root_path : String)

theorem lookupAssoc_sizeOf {α : Type} [SizeOf α] {k : String} {v : α} :
    ∀ {l : List (String × α)}, lookupAssoc k l = some v → sizeOf v < sizeOf l := by
  intro l
  induction l with
  | nil => intro h; simp [lookupAssoc] at h
  | cons p rest ih =>
    obtain ⟨k', v'⟩ := p
    intro h
    simp only [lookupAssoc] at h
    split at h
    · injection h with h1
      subst h1
      simp only [List.cons.sizeOf_spec, Prod.mk.sizeOf_spec]
      omega
    · have := ih h
      simp only [List.cons.sizeOf_spec]
      omega

mutual

/-- Model of `ModSet::get_mount_string` (src/mod_set.rs:205): walk the member
list in order, recursing into child sets and appending one escaped lower-dir
entry per leaf folder unless the accumulated string already contains that
entry as a substring; finally strip leading colons, as the source does at
the end of every call. -/
def ModSet.get_mount_string : ModSet → String → String
  | .mk _ _ _ mods mod_sets root_path, mount_string =>
    trimStartColons (mountLoop mods mod_sets root_path mount_string)
termination_by s _ => sizeOf s
decreasing_by
  simp only [ModSet.mk.sizeOf_spec]
  omega

/-- The member loop of `ModSet::get_mount_string`. -/
def mountLoop : List String → List (String × ModSet) → String → String → String
  | [], _, _, mount_string => mount_string
  | mod_name :: rest, mod_sets, root_path, mount_string =>
    match h : lookupAssoc mod_name mod_sets with
    | some set => mountLoop rest mod_sets root_path (set.get_mount_string mount_string)
    | none =>
      if strContains mount_string (escapeColons (joinPath root_path mod_name)) then
        mountLoop rest mod_sets root_path mount_string
      else
        mountLoop rest mod_sets root_path
          (mount_string ++ ":" ++ escapeColons (joinPath root_path mod_name))
termination_by mods mod_sets _ _ => sizeOf mods + sizeOf mod_sets
decreasing_by
  · have := lookupAssoc_sizeOf h
    simp only [List.cons.sizeOf_spec]
    omega
  · simp only [List.cons.sizeOf_spec]
    omega
  · simp only [List.cons.sizeOf_spec]
    omega
  · simp only [List.cons.sizeOf_spec]
    omega

end

/-! ## ModSet::from_config (src/mod_set.rs:20) -/

/-- Construction-time errors of `ModSet::from_config`. In the source these
are formatted strings; the model keeps one constructor per `return Err`
site, carrying the identifiers the message interpolates. `addFailed` is the
wrapper "Failed to add mod set ..." around a failed recursive construction,
`commandParse` wraps the string error of `ExternalCommand::from_config`. -/
inductive SetErr where
  | missingMods (set_id game_id : String)
  | modsNotArray (set_id game_id : String)
  | emptyMods (set_id game_id : String)
  | entryNotString (set_id game_id : String)
  | setNotTable (mod_name game_id : String)
  | recursion (set_id game_id mod_name : String)
  | addFailed (set_id game_id : String) (inner : SetErr)
  | folderMissing (mod_path game_id : String)
  | writableNotBool (set_id game_id : String)
  | preCommandsNotBool (set_id game_id : String)
  | commandNotString (set_id game_id : String)
  | commandNotTable (command_name game_id : String)
  | commandMissing (command_name game_id : String)
  | commandParse (command_name game_id : String) (inner : String)
deriving DecidableEq, Repr

/-- Boolean test that a construction error is (a wrapping of) the cycle
error "Recursion detected in set ...". -/
def SetErr.hasRecursion : SetErr → Bool
  | .recursion _ _ _ => true
  | .addFailed _ _ inner => inner.hasRecursion
  | _ => false

/-- Reads an optional boolean key with default `false`, as `from_config`
does for `writable` and `run_pre_command`; `none` is a type error. -/
def optBool (set_config : List (String × Toml)) (key : String) : Option Bool :=
  match lookupAssoc key set_config with
  | none => some false
  | some v => v.asBool

/-- Resolves the optional named command of a set against the game table, as
the tail of `ModSet::from_config` (src/mod_set.rs:137) does. -/
def resolveCommand (set_id game_id : String)
    (set_config game_config : List (String × Toml)) :
    Except SetErr (Option ExternalCommand) :=
  match lookupAssoc "command" set_config with
  | none => .ok none
  | some cv =>
    match cv.asStr with
    | none => .error (.commandNotString set_id game_id)
    | some command_name =>
      match lookupAssoc command_name game_config with
      | none => .error (.commandMissing command_name game_id)
      | some tv =>
        match tv.asTable with
        | none => .error (.commandNotTable command_name game_id)
        | some command_table =>
          match ExternalCommand.from_config game_id command_name command_table with
          | .error e => .error (.commandParse command_name game_id e)
          | .ok c => .ok (some c)

/-- Number of keys of the game table not yet in the visited set: the measure
that shrinks at every recursive descent of `from_config`. -/
def countNV (game_config : List (String × Toml)) (visited : List String) : Nat :=
  ((game_config.map Prod.fst).filter (fun k => !(visited.contains k))).length

theorem filter_impl_length_le {α : Type} (p q : α → Bool) (l : List α)
    (h : ∀ a, p a = true → q a = true) :
    (l.filter p).length ≤ (l.filter q).length := by
  induction l with
  | nil => simp
  | cons a t ih =>
    simp only [List.filter_cons]
    by_cases hp : p a = true
    · simp only [hp, h a hp, if_true, List.length_cons]
      omega
    · simp only [Bool.not_eq_true] at hp
      simp only [hp, Bool.false_eq_true, if_false]
      split
      · simp only [List.length_cons]
        omega
      · exact ih

theorem lookupAssoc_mem_keys {α : Type} {k : String} {v : α} :
    ∀ {l : List (String × α)}, lookupAssoc k l = some v → k ∈ l.map Prod.fst := by
  intro l
  induction l with
  | nil => intro h; simp [lookupAssoc] at h
  | cons p rest ih =>
    obtain ⟨k', v'⟩ := p
    intro h
    simp only [lookupAssoc] at h
    split at h
    · rename_i heq
      simp [heq]
    · simp [ih h]

theorem filter_not_contains_lt (visited : List String) (m : String)
    (hnv : visited.contains m = false) :
    ∀ l : List String, m ∈ l →
      (l.filter (fun k => !((m :: visited).contains k))).length <
        (l.filter (fun k => !(visited.contains k))).length := by
  have himpl : ∀ k, (!((m :: visited).contains k)) = true → (!(visited.contains k)) = true := by
    intro k h
    rw [Bool.not_eq_true'] at h ⊢
    simp only [List.contains_cons, Bool.or_eq_false_iff] at h
    exact h.2
  intro l hl
  induction l with
  | nil => cases hl
  | cons a t ih =>
    simp only [List.filter_cons]
    rcases List.mem_cons.mp hl with rfl | hmt
    · have h1 : ((m :: visited).contains m) = true := by simp
      simp only [h1, Bool.not_true, Bool.false_eq_true, if_false, hnv, Bool.not_false,
        if_true, List.length_cons]
      have := filter_impl_length_le (fun k => !((m :: visited).contains k))
        (fun k => !(visited.contains k)) t himpl
      omega
    · by_cases hpa : (!((m :: visited).contains a)) = true
      · simp only [hpa, himpl a hpa, if_true, List.length_cons]
        have := ih hmt
        omega
      · simp only [Bool.not_eq_true] at hpa
        simp only [hpa, Bool.false_eq_true, if_false]
        have := ih hmt
        split
        · simp only [List.length_cons]
          omega
        · exact this

theorem countNV_cons_lt {game_config : List (String × Toml)} {visited : List String}
    {m : String} (hk : m ∈ game_config.map Prod.fst) (hnv : visited.contains m = false) :
    countNV game_config (m :: visited) < countNV game_config visited :=
  filter_not_contains_lt visited m hnv _ hk

mutual

/-- Model of `ModSet::from_config` (src/mod_set.rs:20). The TOML scaffolding
is the `Toml` model; the filesystem check `mod_path.try_exists()` becomes
membership of the member name in `fs_mods`, the names of the mod folders
present under the mod root (the access-error branch is not modelled). The
`&mut HashSet` visited set becomes a list passed downward: the source
inserts the member name before recursing and removes it on return, which
for a name not already present is the same as recursing with the extended
list and continuing with the original one. -/
def ModSet.from_config (set_id : String) (set_config : List (String × Toml))
    (game_id : String) (game_config : List (String × Toml)) (root_path : String)
    (fs_mods : List String) (visited : List String) : Except SetErr ModSet :=
  match lookupAssoc "mods" set_config with
  | none => .error (.missingMods set_id game_id)
  | some v =>
    match v.asArray with
    | none => .error (.modsNotArray set_id game_id)
    | some mod_array =>
      if mod_array.isEmpty then .error (.emptyMods set_id game_id)
      else
        match processMods set_id game_id game_config root_path fs_mods visited [] []
            mod_array with
        | .error e => .error e
        | .ok (added_mods, mod_sets) =>
          match optBool set_config "writable" with
          | none => .error (.writableNotBool set_id game_id)
          | some writable =>
            match optBool set_config "run_pre_command" with
            | none => .error (.preCommandsNotBool set_id game_id)
            | some should_run_pre_commands =>
              match resolveCommand set_id game_id set_config game_config with
              | .error e => .error e
              | .ok command =>
                .ok (.mk writable should_run_pre_commands command added_mods mod_sets
                  root_path)
termination_by (countNV game_config visited, 1, 0)
decreasing_by
  exact Prod.Lex.right _ (Prod.Lex.left _ _ (by omega))

/-- The member loop of `ModSet::from_config` (src/mod_set.rs:50), carrying
the `added_mods` and `mod_sets` accumulators. -/
def processMods (set_id game_id : String) (game_config : List (String × Toml))
    (root_path : String) (fs_mods : List String) (visited : List String)
    (added_mods : List String) (mod_sets : List (String × ModSet)) :
    List Toml → Except SetErr (List String × List (String × ModSet))
  | [] => .ok (added_mods, mod_sets)
  | item :: rest =>
    match item.asStr with
    | none => .error (.entryNotString set_id game_id)
    | some mod_name =>
      match hlk : lookupAssoc mod_name game_config with
      | some config =>
        match config.asTable with
        | none => .error (.setNotTable mod_name game_id)
        | some sub_table =>
          if hv : visited.contains mod_name = true then
            .error (.recursion set_id game_id mod_name)
          else
            match ModSet.from_config mod_name sub_table game_id game_config root_path
                fs_mods (mod_name :: visited) with
            | .error e => .error (.addFailed set_id game_id e)
            | .ok sub_set =>
              processMods set_id game_id game_config root_path fs_mods visited
                (added_mods ++ [mod_name]) (insertAssoc mod_name sub_set mod_sets) rest
      | none =>
        if fs_mods.contains mod_name then
          processMods set_id game_id game_config root_path fs_mods visited
            (added_mods ++ [mod_name]) mod_sets rest
        else
          .error (.folderMissing (joinPath root_path mod_name) game_id)
termination_by items => (countNV game_config visited, 0, items.length)
decreasing_by
  · exact Prod.Lex.left _ _
      (countNV_cons_lt (lookupAssoc_mem_keys hlk) (by simpa using hv))
  · exact Prod.Lex.right _ (Prod.Lex.right _ (by simp))
  · exact Prod.Lex.right _ (Prod.Lex.right _ (by simp))

end

/-! ## ModSet::get_commands (src/mod_set.rs:189) -/

mutual

/-- Model of `ModSet::get_commands` (src/mod_set.rs:189): collect each child
set's commands first (recursively; the source iterates
`self.mod_sets.values()`, i.e. the hash map in its arbitrary iteration
order, here the order of the entry list), then push this node's own
command only when no collected command already has the same id. -/
def ModSet.get_commands : ModSet → List ExternalCommand
  | .mk _ _ command _ mod_sets _ =>
    let list := collectCommands mod_sets
    match command with
    | some cmd => if list.any (fun c => c.id == cmd.id) then list else list ++ [cmd]
    | none => list
termination_by s => sizeOf s
decreasing_by
  simp only [ModSet.mk.sizeOf_spec]
  omega

/-- The child-set loop of `ModSet::get_commands`. -/
def collectCommands : List (String × ModSet) → List ExternalCommand
  | [] => []
  | (_, s) :: rest => s.get_commands ++ collectCommands rest
termination_by l => sizeOf l
decreasing_by
  · simp only [List.cons.sizeOf_spec, Prod.mk.sizeOf_spec]
    omega
  · simp only [List.cons.sizeOf_spec]
    omega

end

/-! ## ModSet::get_environment (spec-modelled) -/

/-- Modelled from the spec: `ModSet::get_environment` is called by
`Game::wrap` (src/game.rs:514) but neither its definition nor the
environment field of `ModSet` it reads is part of the sources under src/.
Following the specification's data model, a node carries its own
key-to-value environment map, its ordered member-name list and the map from
member name to resolved child set. -/
inductive EnvSet where
  | mk (environment : List (String × String)) (mods : List String)
      (mod_sets : List (String × EnvSet))

/-- Modelled from the spec: overwrite-or-append one binding of the
accumulated environment map. -/
def setKey : List (String × String) → String → String → List (String × String)
  | [], k, v => [(k, v)]
  | (k', v') :: rest, k, v =>
    if k' = k then (k', v) :: rest else (k', v') :: setKey rest k v

/-- Modelled from the spec: merge `child` into the accumulator `acc`, with
matching keys overwritten by the child's value. -/
def mergeEnv (acc child : List (String × String)) : List (String × String) :=
  child.foldl (fun a kv => setKey a kv.1 kv.2) acc

/-- Last binding of a key in an environment list: the binding that wins when
the list is merged into an accumulator left to right. -/
def lookupLast (k : String) : List (String × String) → Option String
  | [] => none
  | (k', v') :: rest =>
    match lookupLast k rest with
    | some v => some v
    | none => if k' = k then some v' else none

mutual

/-- Modelled from the spec: "start from this node's own environment map;
then, for each member in listed order that resolves to a child set, merge
that child's (recursively merged) environment into the accumulator, with
matching keys overwritten by the child's value." -/
def EnvSet.get_environment : EnvSet → List (String × String)
  | .mk environment mods mod_sets => envLoop mods mod_sets environment
termination_by s => sizeOf s
decreasing_by
  simp only [EnvSet.mk.sizeOf_spec]
  omega

/-- The member loop of the spec-modelled `get_environment`. -/
def envLoop : List String → List (String × EnvSet) → List (String × String) →
    List (String × String)
  | [], _, acc => acc
  | mod_name :: rest, mod_sets, acc =>
    match h : lookupAssoc mod_name mod_sets with
    | some child => envLoop rest mod_sets (mergeEnv acc child.get_environment)
    | none => envLoop rest mod_sets acc
termination_by mods mod_sets _ => sizeOf mods + sizeOf mod_sets
decreasing_by
  · have := lookupAssoc_sizeOf h
    simp only [List.cons.sizeOf_spec]
    omega
  · simp only [List.cons.sizeOf_spec]
    omega
  · simp only [List.cons.sizeOf_spec]
    omega

end

/-! ## The set-reference graph and well-formedness (for the cycle claims) -/

/-- The table a name is keyed to, when the game table maps it to a TOML
table (the condition under which `from_config` treats a member as a set). -/
def tableKeyed (game_config : List (String × Toml)) (m : String) :
    Option (List (String × Toml)) :=
  match lookupAssoc m game_config with
  | some (.table t) => some t
  | _ => none

/-- Member names appearing in a set table's `mods` array. -/
def memberNamesOf (t : List (String × Toml)) : List String :=
  match lookupAssoc "mods" t with
  | some (.arr items) => items.filterMap Toml.asStr
  | _ => []

/-- Member names of a set that are themselves keyed to tables: the members
`from_config` recurses into. -/
def memberSetNames (game_config : List (String × Toml)) (x : String) : List String :=
  match tableKeyed game_config x with
  | some t => (memberNamesOf t).filter (fun m => (tableKeyed game_config m).isSome)
  | none => []

/-- One step of the set-reference graph: set `a` lists member `b`, and `b`
is keyed to a table of its own. -/
def edgeB (game_config : List (String × Toml)) (a b : String) : Bool :=
  (memberSetNames game_config a).contains b

/-- A chain of set references starting at `a` through the listed names. -/
def isPath (game_config : List (String × Toml)) : String → List String → Bool
  | _, [] => true
  | a, b :: rest => edgeB game_config a b && isPath game_config b rest

/-- Well-formedness of one command table, mirroring exactly the checks of
`ExternalCommand::from_config`. -/
def cmdTableWFB (t : List (String × Toml)) : Bool :=
  (match lookupAssoc "command" t with
   | some (.arr items) => !items.isEmpty && items.all Toml.isStr
   | _ => false)
  && (match lookupAssoc "wait_for_exit" t with
      | none => true
      | some (.boolean _) => true
      | some _ => false)
  && (match lookupAssoc "delay_after" t with
      | none => true
      | some (.int _) => true
      | some _ => false)
  && (match lookupAssoc "environment" t with
      | none => true
      | some (.table env) => env.all (fun kv => kv.2.isStr)
      | some _ => false)

/-- A named command referenced from a set resolves to a table and parses. -/
def commandWFB (game_config : List (String × Toml)) (name : String) : Bool :=
  match tableKeyed game_config name with
  | some t => cmdTableWFB t
  | none => false

/-- Well-formedness of one member entry of a `mods` array: a string that is
either keyed to a table and listed in `setNames`, or an existing leaf
folder. -/
def memberOkB (game_config : List (String × Toml)) (fs_mods : List String)
    (setNames : List String) : Toml → Bool
  | .str m =>
    (match lookupAssoc m game_config with
     | some (.table _) => setNames.contains m
     | some _ => false
     | none => fs_mods.contains m)
  | _ => false

/-- Well-formedness of a set table relative to the game table, the existing
mod folders and a collection `setNames` of set names: the mods array is
present, non-empty and all strings; every member is either keyed to a table
and listed in `setNames`, or an existing leaf folder; the optional flags
are booleans; the optional command reference is a string that resolves. -/
def setTableWFB (game_config : List (String × Toml)) (fs_mods : List String)
    (setNames : List String) (t : List (String × Toml)) : Bool :=
  (match lookupAssoc "mods" t with
   | some (.arr items) =>
     !items.isEmpty && items.all (memberOkB game_config fs_mods setNames)
   | _ => false)
  && (match lookupAssoc "writable" t with
      | none => true
      | some (.boolean _) => true
      | some _ => false)
  && (match lookupAssoc "run_pre_command" t with
      | none => true
      | some (.boolean _) => true
      | some _ => false)
  && (match lookupAssoc "command" t with
      | none => true
      | some (.str n) => commandWFB game_config n
      | some _ => false)

/-- Every name in `setNames` is keyed to a well-formed set table. -/
def setsWFB (game_config : List (String × Toml)) (fs_mods : List String)
    (setNames : List String) : Bool :=
  setNames.all (fun x =>
    match tableKeyed game_config x with
    | some t => setTableWFB game_config fs_mods setNames t
    | none => false)

/-- The rank decreases along every set-to-set reference out of `setNames`:
a topological witness that the part of the reference graph the construction
can explore is acyclic. -/
def rankOkB (game_config : List (String × Toml)) (setNames : List String)
    (rank : String → Nat) : Bool :=
  setNames.all (fun x =>
    (memberSetNames game_config x).all (fun m => decide (rank m < rank x)))

/-- Kind of the error an overlay operation returned, if it failed. -/
def errKind {α : Type} : Except OverlayError α → Option OverlayErrorKind
  | .error e => some e.kind
  | .ok _ => none

/-! # Claim theorems -/

/-- C1: for every combination of filesystem probe results,
`get_current_mounting_state` returns exactly the state (and the
empty-directory cleanup) given by the documented table, and every
combination outside the table fails with a MountState error instead of
being silently accepted. -/
theorem c1_mount_state_follows_table (o : Overlay) (fs : FsProbe) :
    exceptOk (o.get_current_mounting_state fs) = mountStateTable fs ∧
    (mountStateTable fs = none →
      isMountStateError (o.get_current_mounting_state fs) = true) := by
  obtain ⟨a, b, c, d, e⟩ := fs
  cases a <;> cases b <;> cases c <;> cases d <;> cases e <;>
    simp [Overlay.get_current_mounting_state, mountStateTable, is_directory_empty,
      exceptOk, isMountStateError]

/-- Witness for C1: a concrete overlay and a probe combination outside the
table (both directories missing) is rejected with a MountState error. -/
theorem c1_mount_state_follows_table_witness :
    isMountStateError ((Overlay.mk "game" "/orig" "/shadow" "/home").get_current_mounting_state
      ⟨false, false, false, false, false⟩) = true :=
  (c1_mount_state_follows_table (Overlay.mk "game" "/orig" "/shadow" "/home")
    ⟨false, false, false, false, false⟩).2 rfl

/-- C5: `Overlay::mount` reports success only if the post-mount re-probe
confirms the original path is a mountpoint, and when the helper exits 0 but
the probe reports the path not mounted, it returns a MountState error. -/
theorem c5_mount_verifies_mountpoint (o : Overlay) (w : MountWorld) :
    (o.mount w = .ok () → w.probe = some true) ∧
    (w.cwdRootOk = true → w.helper = some true → w.probe = some false →
      errKind (o.mount w) = some .mountState) := by
  obtain ⟨cr, h, p, cb⟩ := w
  cases cr <;> cases cb <;> rcases h with _ | (_ | _) <;> rcases p with _ | (_ | _) <;>
    simp [Overlay.mount, Overlay.change_cwd, errKind]

/-- Witness for C5: with the helper succeeding but the re-probe reporting
the path not mounted, mount fails with a MountState error. -/
theorem c5_mount_verifies_mountpoint_witness :
    errKind ((Overlay.mk "game" "/orig" "/shadow" "/home").mount
      ⟨true, some true, some false, true⟩) = some .mountState :=
  (c5_mount_verifies_mountpoint (Overlay.mk "game" "/orig" "/shadow" "/home")
    ⟨true, some true, some false, true⟩).2 rfl rfl rfl

/-- C6: the busy probe of `Overlay::unmount` passes the game id, not the
original game path, to lsof. At the concrete failing input the world
reports processes holding files open under the original path while nothing
matches the game id: unmount then proceeds and invokes the privileged
helper, returning success instead of the distinguished Used error. The
second conjunct shows the Used short-circuit that does exist is keyed on
the lsof answer for the game id. -/
theorem c6_busy_probe_checks_id_not_path :
    ((Overlay.mk "mygame" "/games/skyrim" "/games/skyrim_mod-manager" "/home").unmount
        ⟨true, some false, some true, some true⟩ = (.ok (), true)) ∧
    ((Overlay.mk "mygame" "/games/skyrim" "/games/skyrim_mod-manager" "/home").unmount
        ⟨true, some true, some false, some true⟩ =
      (.error ⟨.used, "mygame", "Unmounting failed, the overlay is still in use."⟩, false)) := by
  constructor <;> rfl

/-- C9: a successful `Game::deactivate` always leaves the overlay's mount
state reading Normal, and a deactivate started while the state already reads
Normal returns success immediately, leaving the filesystem untouched and
performing no unmount-helper invocation, no directory removal and no
rename. -/
theorem c9_deactivate_idempotent (o : Overlay) (w : DeactWorld) (fs : GameFs) :
    (∀ fs' ops, Game.deactivate o w fs = .ok (fs', ops) → stateReadsNormal o fs' = true) ∧
    (stateReadsNormal o fs = true → Game.deactivate o w fs = .ok (fs, [])) := by
  obtain ⟨⟨cr, lg, lp, hel⟩, cb⟩ := w
  obtain ⟨m, og, sh⟩ := fs
  cases m <;> rcases og with _ | (_ | _) <;> rcases sh with _ | (_ | _) <;>
    cases cr <;> rcases lg with _ | (_ | _) <;> rcases hel with _ | (_ | _) <;> cases cb <;>
    simp [Game.deactivate, deactivateRest, Overlay.getStateFs, Overlay.unmount,
      Overlay.change_cwd, Overlay.get_current_mounting_state, GameFs.probe,
      is_directory_empty, stateReadsNormal]

/-- Witness for C9: deactivating a concrete mounted game succeeds after
unmounting, removing and renaming, and the state of the resulting
filesystem reads Normal; a deactivate from that Normal state is a no-op
that performs no operation. -/
theorem c9_deactivate_idempotent_witness :
    stateReadsNormal (Overlay.mk "g" "/p" "/m" "/w") ⟨false, some true, none⟩ = true ∧
    Game.deactivate (Overlay.mk "g" "/p" "/m" "/w")
      ⟨⟨true, some false, some false, some true⟩, true⟩ ⟨false, some true, none⟩ =
      .ok (⟨false, some true, none⟩, []) :=
  ⟨(c9_deactivate_idempotent (Overlay.mk "g" "/p" "/m" "/w")
      ⟨⟨true, some false, some false, some true⟩, true⟩ ⟨true, none, some true⟩).1
      ⟨false, some true, none⟩ [.unmountHelper, .removeDir, .rename] rfl,
   (c9_deactivate_idempotent (Overlay.mk "g" "/p" "/m" "/w")
      ⟨⟨true, some false, some false, some true⟩, true⟩ ⟨false, some true, none⟩).2 rfl⟩

/-- C10: `ExternalCommand::run` returns a child handle exactly when
`wait_for_exit` is false and spawning succeeded — the handle is the spawned
process itself, returned after the optional delay; with `wait_for_exit` set
it waits and returns none whatever the exit status; and it returns an error
exactly when spawning fails. -/
theorem c10_run_wait_contract (c : ExternalCommand) (w : RunWorld) :
    (c.wait_for_exit = false → ∀ p, w.spawn = some p → c.run w = .ok (some p)) ∧
    (c.wait_for_exit = true → ∀ p, w.spawn = some p → c.run w = .ok none) ∧
    (∀ p, c.run w = .ok (some p) → c.wait_for_exit = false ∧ w.spawn = some p) ∧
    ((∃ m, c.run w = .error m) ↔ w.spawn = none) := by
  obtain ⟨sp, ex⟩ := w
  rcases sp with _ | p <;> cases hw : c.wait_for_exit <;>
    simp [ExternalCommand.run, hw]

/-- Witness for C10: a concrete no-wait command returns the spawned child
handle. -/
theorem c10_run_wait_contract_witness :
    (ExternalCommand.mk "game" ["prog"] [] false none).run ⟨some 7, true⟩ = .ok (some 7) :=
  (c10_run_wait_contract (ExternalCommand.mk "game" ["prog"] [] false none)
    ⟨some 7, true⟩).1 rfl 7 rfl

/-- C2 counterexample to exact-entry dedup: with leaf members "ab" then "a"
under root "/r", the escaped path of "a" is not identical to the single
previously appended entry "/r/ab", yet it is skipped (it occurs as a
substring), so the produced mount string is "/r/ab" and not the
"/r/ab:/r/a" that per-entry dedup would give. -/
theorem c2_substring_dedup_counterexample :
    ModSet.get_mount_string (.mk false false none ["ab", "a"] [] "/r") "" = "/r/ab" ∧
    ("/r/ab" : String) ≠ "/r/ab:/r/a" := by
  constructor
  · simp [ModSet.get_mount_string, mountLoop, lookupAssoc, strContains, listSub,
      listPrefixB, escapeColons, escChars, joinPath, trimStartColons]
  · decide

/-- C2 (amended): during the traversal a leaf member's escaped path is
skipped if and only if it already occurs as a substring of the accumulated
mount string (not only as an identical whole entry); when it does not occur
as a substring it is appended. -/
theorem c2_leaf_skip_iff_substring (root_path mod_name : String) (rest : List String)
    (mod_sets : List (String × ModSet)) (acc : String)
    (hleaf : lookupAssoc mod_name mod_sets = none) :
    ((∃ l r, acc.data = l ++ (escapeColons (joinPath root_path mod_name)).data ++ r) →
      mountLoop (mod_name :: rest) mod_sets root_path acc =
        mountLoop rest mod_sets root_path acc) ∧
    (¬ (∃ l r, acc.data = l ++ (escapeColons (joinPath root_path mod_name)).data ++ r) →
      mountLoop (mod_name :: rest) mod_sets root_path acc =
        mountLoop rest mod_sets root_path
          (acc ++ ":" ++ escapeColons (joinPath root_path mod_name))) := by
  constructor <;> intro hsub
  · have hc : strContains acc (escapeColons (joinPath root_path mod_name)) = true :=
      (strContains_iff _ _).mpr hsub
    rw [mountLoop]
    split
    · rename_i set hsome
      rw [hleaf] at hsome
      cases hsome
    · rw [if_pos hc]
  · have hc : strContains acc (escapeColons (joinPath root_path mod_name)) = false := by
      rcases hb : strContains acc (escapeColons (joinPath root_path mod_name)) with _ | _
      · rfl
      · exact absurd ((strContains_iff _ _).mp hb) hsub
    rw [mountLoop]
    split
    · rename_i set hsome
      rw [hleaf] at hsome
      cases hsome
    · rw [if_neg (by simp [hc])]

/-- Witness for C2 (amended): at the concrete accumulator "/r/ab" the leaf
"a" (escaped path "/r/a") is skipped, its path occurring as a proper
substring of the accumulated string. -/
theorem c2_leaf_skip_iff_substring_witness :
    mountLoop ["a"] [] "/r" "/r/ab" = mountLoop [] [] "/r" "/r/ab" :=
  (c2_leaf_skip_iff_substring "/r" "a" [] [] "/r/ab" rfl).1
    ⟨[], ['b'], by decide⟩

/-- C4: the traversal is depth-first and pre-order — a member resolving to a
child set contributes that set's entire sub-stack before the traversal
continues with the later siblings — and on the documented example
S1 = [S2, "mod1", "mod2"], S2 = ["mod1", "mod3"] the flattened lower-layer
order is exactly mod1, mod3, mod2, the second occurrence of mod1 being
dedup-skipped. -/
theorem c4_preorder_traversal :
    (∀ (mod_name : String) (rest : List String) (mod_sets : List (String × ModSet))
        (root_path acc : String) (sub : ModSet),
      lookupAssoc mod_name mod_sets = some sub →
      mountLoop (mod_name :: rest) mod_sets root_path acc =
        mountLoop rest mod_sets root_path (sub.get_mount_string acc)) ∧
    ModSet.get_mount_string
      (.mk false false none ["set2", "mod1", "mod2"]
        [("set2", .mk false false none ["mod1", "mod3"] [] "/mods")] "/mods") "" =
      "/mods/mod1:/mods/mod3:/mods/mod2" := by
  constructor
  · intro mod_name rest mod_sets root_path acc sub hsome
    rw [mountLoop]
    split
    · rename_i set hset
      rw [hsome] at hset
      cases hset
      rfl
    · rename_i hnone
      rw [hsome] at hnone
      cases hnone
  · simp [ModSet.get_mount_string, mountLoop, lookupAssoc, strContains, listSub,
      listPrefixB, escapeColons, escChars, joinPath, trimStartColons]

/-- C7: the output of `get_commands` depends on the iteration order of the
`mod_sets` hash map, which the member list does not determine: with members
listed A then B, the two possible map iteration orders yield the two
commands in opposite orders, so a member-order guarantee does not hold.
Children-before-self and the id-dedup of the node's own command do hold:
a root command whose id equals a child-contributed command's id is dropped,
leaving that command exactly once, in the child's position. -/
theorem c7_get_commands_map_order :
    ModSet.get_commands (.mk false false none ["A", "B"]
      [("A", .mk false false (some ⟨"a", ["runA"], [], true, none⟩) ["mA"] [] "/r"),
       ("B", .mk false false (some ⟨"b", ["runB"], [], true, none⟩) ["mB"] [] "/r")] "/r") =
      [⟨"a", ["runA"], [], true, none⟩, ⟨"b", ["runB"], [], true, none⟩] ∧
    ModSet.get_commands (.mk false false none ["A", "B"]
      [("B", .mk false false (some ⟨"b", ["runB"], [], true, none⟩) ["mB"] [] "/r"),
       ("A", .mk false false (some ⟨"a", ["runA"], [], true, none⟩) ["mA"] [] "/r")] "/r") =
      [⟨"b", ["runB"], [], true, none⟩, ⟨"a", ["runA"], [], true, none⟩] ∧
    ModSet.get_commands (.mk false false (some ⟨"a", ["runRoot"], [], true, none⟩) ["A"]
      [("A", .mk false false (some ⟨"a", ["runA"], [], true, none⟩) ["mA"] [] "/r")] "/r") =
      [⟨"a", ["runA"], [], true, none⟩] := by
  refine ⟨?_, ?_, ?_⟩ <;> simp [ModSet.get_commands, collectCommands]

theorem lookupAssoc_setKey_self (l : List (String × String)) (k v : String) :
    lookupAssoc k (setKey l k v) = some v := by
  induction l with
  | nil => simp [setKey, lookupAssoc]
  | cons p rest ih =>
    obtain ⟨k', v'⟩ := p
    by_cases h : k' = k
    · simp [setKey, h, lookupAssoc]
    · simp only [setKey, h, if_false, lookupAssoc]
      rw [if_neg (fun hh => h hh.symm)]
      exact ih

theorem lookupAssoc_setKey_other (l : List (String × String)) (k k' v : String)
    (h : k' ≠ k) : lookupAssoc k' (setKey l k v) = lookupAssoc k' l := by
  induction l with
  | nil => simp [setKey, lookupAssoc, h]
  | cons p rest ih =>
    obtain ⟨a, b⟩ := p
    by_cases ha : a = k
    · subst ha
      simp [setKey, lookupAssoc, h]
    · simp only [setKey, ha, if_false, lookupAssoc]
      split
      · rfl
      · exact ih

theorem lookupAssoc_mergeEnv (child : List (String × String)) :
    ∀ (acc : List (String × String)) (k : String),
      lookupAssoc k (mergeEnv acc child) =
        match lookupLast k child with
        | some v => some v
        | none => lookupAssoc k acc := by
  induction child with
  | nil => intro acc k; simp [mergeEnv, lookupLast]
  | cons p rest ih =>
    intro acc k
    obtain ⟨k', v'⟩ := p
    have hstep : mergeEnv acc ((k', v') :: rest) = mergeEnv (setKey acc k' v') rest := rfl
    rw [hstep, ih]
    simp only [lookupLast]
    rcases lookupLast k rest with _ | v
    · by_cases h : k' = k
      · subst h
        simp [lookupAssoc_setKey_self]
      · simp [h, lookupAssoc_setKey_other _ _ _ _ (fun hh => h hh.symm)]
    · rfl

/-- C8 (modelled from the spec): the merged environment starts from the
node's own map and, for each member in listed order resolving to a child
set, merges the child's recursively merged environment into the accumulator
with matching keys overwritten by the child's value — looking up a key
after a merge yields the child's last binding for it when one exists and
the accumulator's binding otherwise; concretely, with S1 setting X=1 and
including child S2 which sets X=2, S1's merged environment maps X to 2. -/
theorem c8_environment_child_overwrites :
    (∀ (acc child : List (String × String)) (k : String),
      lookupAssoc k (mergeEnv acc child) =
        match lookupLast k child with
        | some v => some v
        | none => lookupAssoc k acc) ∧
    lookupAssoc "X"
      (EnvSet.get_environment
        (.mk [("X", "1")] ["set2"] [("set2", .mk [("X", "2")] ["m"] [])])) = some "2" := by
  constructor
  · intro acc child k
    exact lookupAssoc_mergeEnv child acc k
  · simp [EnvSet.get_environment, envLoop, lookupAssoc, mergeEnv, setKey, lookupLast]

/-! ## Lemmas for the cycle analysis of from_config (C3) -/

theorem contains_iff {l : List String} {a : String} : l.contains a = true ↔ a ∈ l := by
  induction l with
  | nil => simp
  | cons b t ih =>
    simp only [List.contains_cons, Bool.or_eq_true, beq_iff_eq, List.mem_cons]
    rw [ih]

theorem setsWFB_spec {gc : List (String × Toml)} {fs_mods setNames : List String}
    (h : setsWFB gc fs_mods setNames = true) {id : String} {t : List (String × Toml)}
    (hid : setNames.contains id = true) (ht : tableKeyed gc id = some t) :
    setTableWFB gc fs_mods setNames t = true := by
  unfold setsWFB at h
  rw [List.all_eq_true] at h
  have h2 := h id (contains_iff.mp hid)
  rw [ht] at h2
  exact h2

theorem setTableWFB_mods {gc : List (String × Toml)} {fs_mods setNames : List String}
    {t : List (String × Toml)} (h : setTableWFB gc fs_mods setNames t = true) :
    ∃ items, lookupAssoc "mods" t = some (.arr items) ∧ items.isEmpty = false ∧
      ∀ it ∈ items, memberOkB gc fs_mods setNames it = true := by
  unfold setTableWFB at h
  rw [Bool.and_eq_true, Bool.and_eq_true, Bool.and_eq_true] at h
  obtain ⟨⟨⟨h1, _⟩, _⟩, _⟩ := h
  split at h1
  · rename_i items heq
    rw [Bool.and_eq_true] at h1
    obtain ⟨hne, hall⟩ := h1
    rw [List.all_eq_true] at hall
    exact ⟨items, heq, by simpa using hne, hall⟩
  · simp at h1

theorem optBool_of_wf {t : List (String × Toml)} {key : String}
    (h : (match lookupAssoc key t with
          | none => true
          | some (.boolean _) => true
          | some _ => false) = true) :
    ∃ b, optBool t key = some b := by
  split at h
  · rename_i heq
    exact ⟨false, by simp [optBool, heq]⟩
  · rename_i b heq
    exact ⟨b, by simp [optBool, heq, Toml.asBool]⟩
  · simp at h

theorem setTableWFB_writable {gc : List (String × Toml)} {fs_mods setNames : List String}
    {t : List (String × Toml)} (h : setTableWFB gc fs_mods setNames t = true) :
    ∃ b, optBool t "writable" = some b := by
  unfold setTableWFB at h
  rw [Bool.and_eq_true, Bool.and_eq_true, Bool.and_eq_true] at h
  exact optBool_of_wf h.1.1.2

theorem setTableWFB_runpre {gc : List (String × Toml)} {fs_mods setNames : List String}
    {t : List (String × Toml)} (h : setTableWFB gc fs_mods setNames t = true) :
    ∃ b, optBool t "run_pre_command" = some b := by
  unfold setTableWFB at h
  rw [Bool.and_eq_true, Bool.and_eq_true, Bool.and_eq_true] at h
  exact optBool_of_wf h.1.2

theorem tomlStrings_of_all_isStr {items : List Toml} (h : items.all Toml.isStr = true) :
    ∃ args, tomlStrings items = some args := by
  induction items with
  | nil => exact ⟨[], rfl⟩
  | cons it rest ih =>
    rw [List.all_cons, Bool.and_eq_true] at h
    obtain ⟨h1, h2⟩ := h
    obtain ⟨args, hargs⟩ := ih h2
    cases it with
    | str s => exact ⟨s :: args, by simp [tomlStrings, Toml.asStr, hargs]⟩
    | int n => simp [Toml.isStr] at h1
    | boolean b => simp [Toml.isStr] at h1
    | arr l => simp [Toml.isStr] at h1
    | table tt => simp [Toml.isStr] at h1

theorem tomlEnvPairs_of_all_isStr {l : List (String × Toml)}
    (h : l.all (fun kv => kv.2.isStr) = true) : ∃ env, tomlEnvPairs l = some env := by
  induction l with
  | nil => exact ⟨[], rfl⟩
  | cons kv rest ih =>
    rw [List.all_cons, Bool.and_eq_true] at h
    obtain ⟨h1, h2⟩ := h
    obtain ⟨env, henv⟩ := ih h2
    obtain ⟨k, v⟩ := kv
    cases v with
    | str s => exact ⟨(k, s) :: env, by simp [tomlEnvPairs, Toml.asStr, henv]⟩
    | int n => simp [Toml.isStr] at h1
    | boolean b => simp [Toml.isStr] at h1
    | arr ll => simp [Toml.isStr] at h1
    | table tt => simp [Toml.isStr] at h1

theorem ecWaitForExit_ok {ct : List (String × Toml)}
    (h : (match lookupAssoc "wait_for_exit" ct with
          | none => true
          | some (.boolean _) => true
          | some _ => false) = true) :
    ∃ b, ecWaitForExit ct = .ok b := by
  split at h
  · rename_i heq
    exact ⟨true, by simp [ecWaitForExit, heq]⟩
  · rename_i b heq
    exact ⟨b, by simp [ecWaitForExit, heq, Toml.asBool]⟩
  · simp at h

theorem ecDelayAfter_ok {ct : List (String × Toml)}
    (h : (match lookupAssoc "delay_after" ct with
          | none => true
          | some (.int _) => true
          | some _ => false) = true) :
    ∃ d, ecDelayAfter ct = .ok d := by
  split at h
  · rename_i heq
    exact ⟨none, by simp [ecDelayAfter, heq]⟩
  · rename_i n heq
    exact ⟨some ((n % (2 : Int) ^ 64).toNat), by simp [ecDelayAfter, heq, Toml.asInteger]⟩
  · simp at h

theorem ecEnvironment_ok {ct : List (String × Toml)}
    (h : (match lookupAssoc "environment" ct with
          | none => true
          | some (.table env) => env.all (fun kv => kv.2.isStr)
          | some _ => false) = true) :
    ∃ env, ecEnvironment ct = .ok env := by
  split at h
  · rename_i heq
    exact ⟨[], by simp [ecEnvironment, heq]⟩
  · rename_i envT heq
    obtain ⟨env, henv⟩ := tomlEnvPairs_of_all_isStr h
    exact ⟨env, by simp [ecEnvironment, heq, Toml.asTable, henv]⟩
  · simp at h

theorem externalCommand_from_config_ok {game_name id : String} {ct : List (String × Toml)}
    (h : cmdTableWFB ct = true) :
    ∃ c, ExternalCommand.from_config game_name id ct = .ok c := by
  unfold cmdTableWFB at h
  rw [Bool.and_eq_true, Bool.and_eq_true, Bool.and_eq_true] at h
  obtain ⟨⟨⟨h1, h2⟩, h3⟩, h4⟩ := h
  unfold ExternalCommand.from_config
  split at h1
  · rename_i items heq
    rw [heq]
    simp only [Toml.asArray]
    rw [Bool.and_eq_true] at h1
    obtain ⟨hne, hall⟩ := h1
    rw [if_neg (by simp_all)]
    obtain ⟨args, hargs⟩ := tomlStrings_of_all_isStr hall
    rw [hargs]
    obtain ⟨w, hw⟩ := ecWaitForExit_ok h2
    rw [hw]
    obtain ⟨d, hd⟩ := ecDelayAfter_ok h3
    rw [hd]
    obtain ⟨env, henv⟩ := ecEnvironment_ok h4
    rw [henv]
    exact ⟨_, rfl⟩
  · simp at h1

theorem resolveCommand_ok_of_wf {set_id game_id : String} {t gc : List (String × Toml)}
    (h : (match lookupAssoc "command" t with
          | none => true
          | some (.str n) => commandWFB gc n
          | some _ => false) = true) :
    ∃ c, resolveCommand set_id game_id t gc = .ok c := by
  unfold resolveCommand
  split at h
  · rename_i heq
    rw [heq]
    exact ⟨none, rfl⟩
  · rename_i nm heq
    rw [heq]
    simp only [Toml.asStr]
    unfold commandWFB at h
    have hcwf : ∃ ct, lookupAssoc nm gc = some (.table ct) ∧ cmdTableWFB ct = true := by
      split at h
      · rename_i ct hct
        unfold tableKeyed at hct
        split at hct
        · rename_i t' hg
          injection hct with hct
          subst hct
          exact ⟨t', hg, h⟩
        · cases hct
      · simp at h
    obtain ⟨ct, hl, hwf⟩ := hcwf
    rw [hl]
    simp only [Toml.asTable]
    obtain ⟨c, hcok⟩ := @externalCommand_from_config_ok game_id nm ct hwf
    rw [hcok]
    exact ⟨some c, rfl⟩
  · simp at h

theorem setTableWFB_command {set_id game_id : String} {gc : List (String × Toml)}
    {fs_mods setNames : List String} {t : List (String × Toml)}
    (h : setTableWFB gc fs_mods setNames t = true) :
    ∃ c, resolveCommand set_id game_id t gc = .ok c := by
  unfold setTableWFB at h
  rw [Bool.and_eq_true, Bool.and_eq_true, Bool.and_eq_true] at h
  exact resolveCommand_ok_of_wf h.2

theorem tableKeyed_lookup {gc : List (String × Toml)} {m : String} {t : List (String × Toml)}
    (h : tableKeyed gc m = some t) : lookupAssoc m gc = some (.table t) := by
  unfold tableKeyed at h
  split at h
  · rename_i t' hg
    injection h with h
    subst h
    exact hg
  · cases h

theorem mem_memberSetNames {gc : List (String × Toml)} {id m : String}
    {t : List (String × Toml)} {items : List Toml}
    (ht : tableKeyed gc id = some t) (hm : lookupAssoc "mods" t = some (.arr items))
    (hit : (Toml.str m) ∈ items) {tm : List (String × Toml)}
    (htm : tableKeyed gc m = some tm) :
    m ∈ memberSetNames gc id := by
  unfold memberSetNames
  rw [ht]
  rw [List.mem_filter]
  constructor
  · unfold memberNamesOf
    rw [hm]
    exact List.mem_filterMap.mpr ⟨.str m, hit, rfl⟩
  · simp [htm]

theorem edgeB_spec {gc : List (String × Toml)} {a b : String}
    (h : edgeB gc a b = true) :
    ∃ t items tb, tableKeyed gc a = some t ∧ lookupAssoc "mods" t = some (.arr items) ∧
      (Toml.str b) ∈ items ∧ tableKeyed gc b = some tb := by
  unfold edgeB at h
  rw [contains_iff] at h
  unfold memberSetNames at h
  rcases ht : tableKeyed gc a with _ | t
  · rw [ht] at h; cases h
  · rw [ht] at h
    rw [List.mem_filter] at h
    obtain ⟨hmem, hsome⟩ := h
    unfold memberNamesOf at hmem
    rcases hm : lookupAssoc "mods" t with _ | v
    · rw [hm] at hmem; cases hmem
    · rw [hm] at hmem
      cases v with
      | arr items =>
        rw [List.mem_filterMap] at hmem
        obtain ⟨it, hit, hstr⟩ := hmem
        have hit' : (Toml.str b) ∈ items := by
          cases it with
          | str s =>
            simp only [Toml.asStr, Option.some.injEq] at hstr
            exact hstr ▸ hit
          | int n => simp [Toml.asStr] at hstr
          | boolean bb => simp [Toml.asStr] at hstr
          | arr l => simp [Toml.asStr] at hstr
          | table tt2 => simp [Toml.asStr] at hstr
        rcases htb : tableKeyed gc b with _ | tb
        · rw [htb] at hsome; simp at hsome
        · exact ⟨t, items, tb, rfl, hm, hit', rfl⟩
      | str s => cases hmem
      | int n => cases hmem
      | boolean bb => cases hmem
      | table tt2 => cases hmem

theorem rankOkB_spec {gc : List (String × Toml)} {setNames : List String}
    {rank : String → Nat} (h : rankOkB gc setNames rank = true) {x m : String}
    (hx : setNames.contains x = true) (hm : m ∈ memberSetNames gc x) :
    rank m < rank x := by
  unfold rankOkB at h
  rw [List.all_eq_true] at h
  have h1 := h x (contains_iff.mp hx)
  rw [List.all_eq_true] at h1
  exact of_decide_eq_true (h1 m hm)

theorem from_config_ok_parts {set_id game_id root_path : String}
    {t gc : List (String × Toml)} {fs_mods visited : List String} {s : ModSet}
    (h : ModSet.from_config set_id t game_id gc root_path fs_mods visited = .ok s) :
    ∃ items res, lookupAssoc "mods" t = some (.arr items) ∧
      processMods set_id game_id gc root_path fs_mods visited [] [] items = .ok res := by
  rw [ModSet.from_config] at h
  split at h
  · cases h
  · rename_i v hl
    split at h
    · cases h
    · rename_i items ha
      split at h
      · cases h
      · split at h
        · cases h
        · rename_i added_mods mod_sets hres
          refine ⟨items, (added_mods, mod_sets), ?_, hres⟩
          cases v with
          | arr l =>
            simp only [Toml.asArray, Option.some.injEq] at ha
            rw [hl, ha]
          | str s2 => simp [Toml.asArray] at ha
          | int n2 => simp [Toml.asArray] at ha
          | boolean b2 => simp [Toml.asArray] at ha
          | table t2 => simp [Toml.asArray] at ha

theorem processMods_ok_mem {set_id game_id root_path : String} {gc : List (String × Toml)}
    {fs_mods visited : List String} :
    ∀ {items : List Toml} {accM : List String} {accS : List (String × ModSet)}
      {res : List String × List (String × ModSet)},
      processMods set_id game_id gc root_path fs_mods visited accM accS items = .ok res →
      ∀ {m : String} {tm : List (String × Toml)}, (Toml.str m) ∈ items →
        tableKeyed gc m = some tm →
        visited.contains m = false ∧
        ∃ sub, ModSet.from_config m tm game_id gc root_path fs_mods (m :: visited) =
          .ok sub := by
  intro items
  induction items with
  | nil =>
    intro accM accS res h m tm hm htm
    cases hm
  | cons item rest ih =>
    intro accM accS res h m tm hm htm
    rw [processMods] at h
    split at h
    · cases h
    · rename_i mod_name hstr
      split at h
      · rename_i config hlk
        split at h
        · cases h
        · rename_i sub_table htab
          split at h
          · cases h
          · rename_i hnv
            split at h
            · cases h
            · rename_i sub_set hsub
              rcases List.mem_cons.mp hm with heq | hmt
              · subst heq
                simp only [Toml.asStr, Option.some.injEq] at hstr
                subst hstr
                have hcfg := tableKeyed_lookup htm
                rw [hcfg] at hlk
                injection hlk with hlk
                subst hlk
                simp only [Toml.asTable, Option.some.injEq] at htab
                subst htab
                exact ⟨by simpa using hnv, sub_set, hsub⟩
              · exact ih h hmt htm
      · rename_i hlk
        split at h
        · rcases List.mem_cons.mp hm with heq | hmt
          · subst heq
            simp only [Toml.asStr, Option.some.injEq] at hstr
            subst hstr
            rw [tableKeyed_lookup htm] at hlk
            cases hlk
          · exact ih h hmt htm
        · cases h

theorem from_config_ok_no_cycle :
    ∀ (n : Nat) (gc : List (String × Toml)) (visited : List String),
      countNV gc visited = n →
      ∀ (id : String) (t : List (String × Toml)) (game_id root_path : String)
        (fs_mods : List String) (s : ModSet),
        tableKeyed gc id = some t →
        ModSet.from_config id t game_id gc root_path fs_mods visited = .ok s →
        ∀ (x : String) (p : List String), isPath gc id (p ++ [x]) = true →
          visited.contains x = false ∧ ∀ q, isPath gc x (q ++ [x]) = false := by
  intro n
  induction n using Nat.strong_induction_on with
  | _ n ih =>
    intro gc visited hn id t game_id root_path fs_mods s htk hok x p hpath
    obtain ⟨items, res, hmods, hpm⟩ := from_config_ok_parts hok
    cases p with
    | nil =>
      simp only [List.nil_append, isPath, Bool.and_eq_true] at hpath
      obtain ⟨hedge, -⟩ := hpath
      obtain ⟨t', items', tx, htk', hmods', hitx, htx⟩ := edgeB_spec hedge
      rw [htk] at htk'
      injection htk' with htk'
      subst htk'
      rw [hmods] at hmods'
      injection hmods' with hmods'
      injection hmods' with hmods'
      subst hmods'
      obtain ⟨hxnv, subx, hsubx⟩ := processMods_ok_mem hpm hitx htx
      refine ⟨hxnv, ?_⟩
      intro q
      by_contra hq
      rw [Bool.not_eq_false] at hq
      have hlt : countNV gc (x :: visited) < n := by
        rw [← hn]
        exact countNV_cons_lt (lookupAssoc_mem_keys (tableKeyed_lookup htx)) hxnv
      have hcontra := (ih _ hlt gc (x :: visited) rfl x tx game_id root_path fs_mods subx
        htx hsubx x q hq).1
      simp at hcontra
    | cons y p' =>
      rw [List.cons_append] at hpath
      simp only [isPath, Bool.and_eq_true] at hpath
      obtain ⟨hedge, hrest⟩ := hpath
      obtain ⟨t', items', ty, htk', hmods', hity, hty⟩ := edgeB_spec hedge
      rw [htk] at htk'
      injection htk' with htk'
      subst htk'
      rw [hmods] at hmods'
      injection hmods' with hmods'
      injection hmods' with hmods'
      subst hmods'
      obtain ⟨hynv, suby, hsuby⟩ := processMods_ok_mem hpm hity hty
      have hlt : countNV gc (y :: visited) < n := by
        rw [← hn]
        exact countNV_cons_lt (lookupAssoc_mem_keys (tableKeyed_lookup hty)) hynv
      obtain ⟨hx1, hx2⟩ := ih _ hlt gc (y :: visited) rfl y ty game_id root_path fs_mods
        suby hty hsuby x p' hrest
      refine ⟨?_, hx2⟩
      simp only [List.contains_cons, Bool.or_eq_false_iff] at hx1
      exact hx1.2

theorem from_config_err_recursion :
    ∀ (n : Nat) (gc : List (String × Toml)) (visited : List String),
      countNV gc visited = n →
      ∀ (fs_mods setNames : List String),
        setsWFB gc fs_mods setNames = true →
        ∀ (id : String) (t : List (String × Toml)) (game_id root_path : String) (e : SetErr),
          tableKeyed gc id = some t →
          setNames.contains id = true →
          ModSet.from_config id t game_id gc root_path fs_mods visited = .error e →
          e.hasRecursion = true := by
  intro n
  induction n using Nat.strong_induction_on with
  | _ n ih =>
    intro gc visited hn fs_mods setNames hwf id t game_id root_path e htk hid herr
    have hst := setsWFB_spec hwf hid htk
    obtain ⟨items, hmods, hne, hall⟩ := setTableWFB_mods hst
    have loop : ∀ (its : List Toml), (∀ it ∈ its, memberOkB gc fs_mods setNames it = true) →
        ∀ (accM : List String) (accS : List (String × ModSet)) (e' : SetErr),
          processMods id game_id gc root_path fs_mods visited accM accS its = .error e' →
          e'.hasRecursion = true := by
      intro its
      induction its with
      | nil =>
        intro _ accM accS e' h
        rw [processMods] at h
        cases h
      | cons item rest ihl =>
        intro hall2 accM accS e' h
        have hmo := hall2 item (List.mem_cons_self _ _)
        rw [processMods] at h
        split at h
        · rename_i hstr
          cases item with
          | str s => simp [Toml.asStr] at hstr
          | int n2 => simp [memberOkB] at hmo
          | boolean b2 => simp [memberOkB] at hmo
          | arr l2 => simp [memberOkB] at hmo
          | table t2 => simp [memberOkB] at hmo
        · rename_i mod_name hstr
          have hitem : item = .str mod_name := by
            cases item with
            | str s =>
              simp only [Toml.asStr, Option.some.injEq] at hstr
              rw [hstr]
            | int n2 => simp [Toml.asStr] at hstr
            | boolean b2 => simp [Toml.asStr] at hstr
            | arr l2 => simp [Toml.asStr] at hstr
            | table t2 => simp [Toml.asStr] at hstr
          rw [hitem] at hmo
          split at h
          · rename_i config hlk
            split at h
            · rename_i htab
              simp only [memberOkB] at hmo
              rw [hlk] at hmo
              cases config with
              | table tt2 => simp [Toml.asTable] at htab
              | str s2 => simp at hmo
              | int n2 => simp at hmo
              | boolean b2 => simp at hmo
              | arr l2 => simp at hmo
            · rename_i sub_table htab
              have hcfg : config = .table sub_table := by
                cases config with
                | table tt2 =>
                  simp only [Toml.asTable, Option.some.injEq] at htab
                  rw [htab]
                | str s2 => simp [Toml.asTable] at htab
                | int n2 => simp [Toml.asTable] at htab
                | boolean b2 => simp [Toml.asTable] at htab
                | arr l2 => simp [Toml.asTable] at htab
              subst hcfg
              split at h
              · injection h with h
                subst h
                simp [SetErr.hasRecursion]
              · rename_i hv
                split at h
                · rename_i e0 herr0
                  injection h with h
                  subst h
                  simp only [SetErr.hasRecursion]
                  have htm : tableKeyed gc mod_name = some sub_table := by
                    unfold tableKeyed
                    rw [hlk]
                  have hmem : setNames.contains mod_name = true := by
                    simp only [memberOkB] at hmo
                    rw [hlk] at hmo
                    exact hmo
                  have hnv : visited.contains mod_name = false := by simpa using hv
                  have hlt : countNV gc (mod_name :: visited) < n := by
                    rw [← hn]
                    exact countNV_cons_lt (lookupAssoc_mem_keys hlk) hnv
                  exact ih _ hlt gc (mod_name :: visited) rfl fs_mods setNames hwf
                    mod_name sub_table game_id root_path e0 htm hmem herr0
                · exact ihl (fun it hit => hall2 it (List.mem_cons_of_mem _ hit)) _ _ _ h
          · rename_i hlk
            split at h
            · exact ihl (fun it hit => hall2 it (List.mem_cons_of_mem _ hit)) _ _ _ h
            · rename_i hfs
              simp only [memberOkB] at hmo
              rw [hlk] at hmo
              exact absurd hmo (by simpa using hfs)
    rw [ModSet.from_config] at herr
    split at herr
    · rename_i hl
      rw [hmods] at hl
      cases hl
    · rename_i v hl
      rw [hmods] at hl
      injection hl with hl
      subst hl
      split at herr
      · rename_i ha
        simp [Toml.asArray] at ha
      · rename_i items' ha
        simp only [Toml.asArray, Option.some.injEq] at ha
        subst ha
        split at herr
        · rename_i hemp
          rw [hne] at hemp
          cases hemp
        · split at herr
          · rename_i e0 hpe
            injection herr with herr
            subst herr
            exact loop items hall [] [] e0 hpe
          · rename_i added mod_sets hpok
            obtain ⟨bw, hbw⟩ := setTableWFB_writable hst
            rw [hbw] at herr
            obtain ⟨br, hbr⟩ := setTableWFB_runpre hst
            rw [hbr] at herr
            obtain ⟨c, hc⟩ := @setTableWFB_command id game_id gc fs_mods setNames t hst
            rw [hc] at herr
            cases herr

theorem from_config_ok_of_ranked :
    ∀ (n : Nat) (gc : List (String × Toml)) (fs_mods setNames : List String)
      (rank : String → Nat),
      setsWFB gc fs_mods setNames = true →
      rankOkB gc setNames rank = true →
      ∀ (id : String) (t : List (String × Toml)) (game_id root_path : String)
        (visited : List String),
        rank id = n →
        tableKeyed gc id = some t →
        setNames.contains id = true →
        (∀ v, visited.contains v = true → rank id ≤ rank v) →
        ∃ s, ModSet.from_config id t game_id gc root_path fs_mods visited = .ok s := by
  intro n
  induction n using Nat.strong_induction_on with
  | _ n ih =>
    intro gc fs_mods setNames rank hwf hrank id t game_id root_path visited hr htk hid hinv
    have hst := setsWFB_spec hwf hid htk
    obtain ⟨items, hmods, hne, hall⟩ := setTableWFB_mods hst
    have loop : ∀ (its : List Toml), (∀ it ∈ its, it ∈ items) →
        ∀ (accM : List String) (accS : List (String × ModSet)),
          ∃ r, processMods id game_id gc root_path fs_mods visited accM accS its = .ok r := by
      intro its
      induction its with
      | nil =>
        intro _ accM accS
        exact ⟨(accM, accS), by rw [processMods]⟩
      | cons item rest ihl =>
        intro hsub accM accS
        have hmo := hall item (hsub item (List.mem_cons_self _ _))
        have hsub' : ∀ it ∈ rest, it ∈ items :=
          fun it hit => hsub it (List.mem_cons_of_mem _ hit)
        cases item with
        | int n2 => simp [memberOkB] at hmo
        | boolean b2 => simp [memberOkB] at hmo
        | arr l2 => simp [memberOkB] at hmo
        | table t2 => simp [memberOkB] at hmo
        | str m =>
          simp only [memberOkB] at hmo
          rcases hlk : lookupAssoc m gc with _ | config
          · rw [hlk] at hmo
            obtain ⟨r0, hr0⟩ := ihl hsub' (accM ++ [m]) accS
            refine ⟨r0, ?_⟩
            rw [processMods]
            simp only [Toml.asStr]
            split
            · rename_i config' heq
              rw [hlk] at heq
              cases heq
            · rename_i heq
              rw [if_pos hmo]
              exact hr0
          · rw [hlk] at hmo
            cases config with
            | str s2 => simp at hmo
            | int n2 => simp at hmo
            | boolean b2 => simp at hmo
            | arr l2 => simp at hmo
            | table tm =>
              have htm : tableKeyed gc m = some tm := by
                unfold tableKeyed
                rw [hlk]
              have hmem : m ∈ memberSetNames gc id :=
                mem_memberSetNames htk hmods (hsub (.str m) (List.mem_cons_self _ _)) htm
              have hlt : rank m < rank id := rankOkB_spec hrank hid hmem
              have hmnv : visited.contains m = false := by
                by_contra hc
                rw [Bool.not_eq_false] at hc
                exact absurd (hinv m hc) (by omega)
              have hinv' : ∀ v, (m :: visited).contains v = true → rank m ≤ rank v := by
                intro v hv
                simp only [List.contains_cons, Bool.or_eq_true, beq_iff_eq] at hv
                rcases hv with rfl | hv
                · exact Nat.le_refl _
                · exact Nat.le_trans (Nat.le_of_lt hlt) (hinv v hv)
              obtain ⟨subm, hsubm⟩ := ih (rank m) (hr ▸ hlt) gc fs_mods setNames rank
                hwf hrank m tm game_id root_path (m :: visited) rfl htm hmo hinv'
              obtain ⟨r0, hr0⟩ := ihl hsub' (accM ++ [m]) (insertAssoc m subm accS)
              refine ⟨r0, ?_⟩
              rw [processMods]
              simp only [Toml.asStr]
              split
              · rename_i config' heq
                rw [hlk] at heq
                injection heq with heq
                subst heq
                simp only [Toml.asTable]
                rw [dif_neg (by intro hcm; rw [hcm] at hmnv; cases hmnv)]
                rw [hsubm]
                exact hr0
              · rename_i heq
                rw [hlk] at heq
                cases heq
    obtain ⟨⟨addedr, setsr⟩, hpr⟩ := loop items (fun it hit => hit) [] []
    obtain ⟨bw, hbw⟩ := setTableWFB_writable hst
    obtain ⟨br, hbr⟩ := setTableWFB_runpre hst
    obtain ⟨c, hc⟩ := @setTableWFB_command id game_id gc fs_mods setNames t hst
    refine ⟨ModSet.mk bw br c addedr setsr root_path, ?_⟩
    rw [ModSet.from_config]
    simp only [hmods, Toml.asArray, hne, Bool.false_eq_true, if_false, hpr, hbw, hbr, hc]

/-- C3: `ModSet::from_config` fails with a cycle error for every otherwise
well-formed configuration in which the root set's member list directly or
transitively includes the root itself (any reference chain from the root
back to the root), and succeeds for every well-formed configuration whose
set-reference graph admits a decreasing rank — in particular every acyclic
diamond in which the same leaf or set is reachable through two sibling,
non-overlapping branches — because a member set's name is added to the
visited set on descent and removed from it on return. -/
theorem c3_cycle_detection :
    (∀ (gc : List (String × Toml)) (fs_mods setNames : List String)
       (root game_id root_path : String) (rootTbl : List (String × Toml)) (p : List String),
      tableKeyed gc root = some rootTbl →
      setNames.contains root = true →
      setsWFB gc fs_mods setNames = true →
      isPath gc root (p ++ [root]) = true →
      ∃ e, ModSet.from_config root rootTbl game_id gc root_path fs_mods [] = .error e ∧
        e.hasRecursion = true) ∧
    (∀ (gc : List (String × Toml)) (fs_mods setNames : List String)
       (root game_id root_path : String) (rootTbl : List (String × Toml))
       (rank : String → Nat),
      tableKeyed gc root = some rootTbl →
      setNames.contains root = true →
      setsWFB gc fs_mods setNames = true →
      rankOkB gc setNames rank = true →
      ∃ s, ModSet.from_config root rootTbl game_id gc root_path fs_mods [] = .ok s) := by
  constructor
  · intro gc fs_mods setNames root game_id root_path rootTbl p htk hid hwf hpath
    rcases hres : ModSet.from_config root rootTbl game_id gc root_path fs_mods [] with e | s
    · exact ⟨e, rfl, from_config_err_recursion (countNV gc []) gc [] rfl fs_mods setNames
        hwf root rootTbl game_id root_path e htk hid hres⟩
    · have hq := (from_config_ok_no_cycle (countNV gc []) gc [] rfl root rootTbl game_id
        root_path fs_mods s htk hres root p hpath).2 p
      rw [hpath] at hq
      cases hq
  · intro gc fs_mods setNames root game_id root_path rootTbl rank htk hid hwf hrank
    exact from_config_ok_of_ranked (rank root) gc fs_mods setNames rank hwf hrank root
      rootTbl game_id root_path [] rfl htk hid (fun v hv => by cases hv)

/-- Witness for C3: the two-set cycle set1 -> set2 -> set1 fails with a
recursion error, and the diamond set1 -> setA, setB with both including the
leaf modC succeeds. -/
theorem c3_cycle_detection_witness :
    (∃ e, ModSet.from_config "set1" [("mods", Toml.arr [Toml.str "set2"])] "game"
        [("set1", Toml.table [("mods", Toml.arr [Toml.str "set2"])]),
         ("set2", Toml.table [("mods", Toml.arr [Toml.str "set1"])])] "/mods" [] [] =
        .error e ∧ e.hasRecursion = true) ∧
    (∃ s, ModSet.from_config "set1" [("mods", Toml.arr [Toml.str "setA", Toml.str "setB"])]
        "game"
        [("set1", Toml.table [("mods", Toml.arr [Toml.str "setA", Toml.str "setB"])]),
         ("setA", Toml.table [("mods", Toml.arr [Toml.str "modC"])]),
         ("setB", Toml.table [("mods", Toml.arr [Toml.str "modC"])])] "/mods" ["modC"] [] =
        .ok s) :=
  ⟨c3_cycle_detection.1
      [("set1", Toml.table [("mods", Toml.arr [Toml.str "set2"])]),
       ("set2", Toml.table [("mods", Toml.arr [Toml.str "set1"])])]
      [] ["set1", "set2"] "set1" "game" "/mods"
      [("mods", Toml.arr [Toml.str "set2"])] ["set2"]
      rfl (by decide) (by decide) (by decide),
   c3_cycle_detection.2
      [("set1", Toml.table [("mods", Toml.arr [Toml.str "setA", Toml.str "setB"])]),
       ("setA", Toml.table [("mods", Toml.arr [Toml.str "modC"])]),
       ("setB", Toml.table [("mods", Toml.arr [Toml.str "modC"])])]
      ["modC"] ["set1", "setA", "setB"] "set1" "game" "/mods"
      [("mods", Toml.arr [Toml.str "setA", Toml.str "setB"])]
      (fun s => if s = "set1" then 2 else 1)
      rfl (by decide) (by decide) (by decide)⟩
